import Mathlib

/-
Shallow embedding of the Go repository andiblas/website-crawler.

Embedded components (from pkg/, the current revision of the code):
- pkg/linkextractor: Normalize, handleRelativeLink, domainMatches,
  searchDomainMatchingLinks, removeDuplicates, Extract.
- pkg/crawler: BreadthFirstCrawler.Crawl, crawlBatchConcurrently,
  buildBatches, crawlWebpage, validation errors (types.go).
- pkg/fetcher: ExpBackoffRetryFetcher.FetchWebpageContent.

Modelling conventions:
- Go strings are `List Char`.
- net/url URL values are records with scheme, host, path, query, fragment;
  the remaining net/url fields (User, Opaque, ...) are not read or written by
  any embedded repository function, which rebuilds URLs from scheme/host/path
  only, so they are omitted.
- The external HTML tokenizer (golang.org/x/net/html) and net/url parser are
  out of scope collaborators: a fetched page is modelled as the sequence of
  parse results of the href attributes of its anchor elements in document
  pre-order, `List (Option URL)`, where `none` stands for an href value on
  which url.Parse fails (such hrefs are skipped by the source).
- Goroutine interleavings are sequentialized in program order: the visited
  map is only touched by the dispatching loop in the source, so the
  dispatch/skip decisions are order-independent; the per-batch accumulation
  order of nextFrontier is fixed to batch order (only its membership is used
  in the theorems below).
- The context Done/Err cancellation signal is modelled by `cancelAt : Nat`:
  the source polls ctx.Err() once per batch, and the poll with index
  `i` (counted from 0 over the whole crawl) reports Canceled iff cancelAt ≤ i.
  This models a monotone cancellation signal observed at batch boundaries.
-/

deriving instance DecidableEq for Except

/- URL: the projection of net/url.URL read and written by the repository. -/
structure URL where
  scheme : List Char
  host : List Char
  path : List Char
  query : List Char
  fragment : List Char
deriving DecidableEq, Repr

/- Go strings.Replace(host, "www.", "", -1): scan left to right, removing
every (non-overlapping, leftmost-first) occurrence of "www.". -/
def replaceWWWAll : List Char → List Char
  | c1 :: c2 :: c3 :: c4 :: rest =>
    if c1 = 'w' ∧ c2 = 'w' ∧ c3 = 'w' ∧ c4 = '.' then replaceWWWAll rest
    else c1 :: replaceWWWAll (c2 :: c3 :: c4 :: rest)
  | short => short

/- Whether "www." occurs as a contiguous substring. -/
def containsWWWDot : List Char → Bool
  | c1 :: c2 :: c3 :: c4 :: rest =>
    if c1 = 'w' ∧ c2 = 'w' ∧ c3 = 'w' ∧ c4 = '.' then true
    else containsWWWDot (c2 :: c3 :: c4 :: rest)
  | _ => false

/- Go strings.TrimRight(path, "/"): remove every trailing '/'. -/
def trimRightSlashes (s : List Char) : List Char :=
  (s.reverse.dropWhile (fun c => c = '/')).reverse

/- pkg/linkextractor.Normalize: rebuild the URL from scheme, the host with
"www." occurrences removed, and the path without trailing slashes; all other
components (query, fragment, ...) are dropped. -/
def Normalize (urlToNormalize : URL) : URL :=
  { scheme := urlToNormalize.scheme
    host := replaceWWWAll urlToNormalize.host
    path := trimRightSlashes urlToNormalize.path
    query := []
    fragment := [] }

/- The host transformation described by the specification text: strip exactly
one leading literal "www." from the host, leaving the rest verbatim. -/
def stripLeadingWWW : List Char → List Char
  | 'w' :: 'w' :: 'w' :: '.' :: rest => rest
  | other => other

/- Normalization as worded by the specification (leading-"www." stripping);
kept separate from `Normalize`, which is translated from the source, so the
two can be compared. -/
def normalizeSpecLeading (u : URL) : URL :=
  { scheme := u.scheme
    host := stripLeadingWWW u.host
    path := trimRightSlashes u.path
    query := []
    fragment := [] }

/- net/url URL.String() restricted to the five modelled fields (no Opaque,
no User, no OmitHost, contents taken as already escaped). -/
def urlString (u : URL) : List Char :=
  (if u.scheme = [] then [] else u.scheme ++ [':']) ++
  (if u.scheme = [] ∧ u.host = [] then []
   else (if u.host = [] ∧ u.path = [] then [] else ['/', '/']) ++ u.host) ++
  (if u.path = [] ∨ u.host = [] then []
   else if u.path.head? = some '/' then [] else ['/']) ++
  (if u.scheme = [] ∧ u.host = [] ∧ (u.path.takeWhile (fun c => c ≠ '/')).elem ':'
   then ['.', '/'] else []) ++
  u.path ++
  (if u.query = [] then [] else '?' :: u.query) ++
  (if u.fragment = [] then [] else '#' :: u.fragment)

/- pkg/linkextractor.handleRelativeLink: an href with empty host or empty
scheme is rebuilt on the base URL's scheme and host, keeping only its path. -/
def handleRelativeLink (baseLink relativeLink : URL) : URL :=
  if relativeLink.host = [] ∨ relativeLink.scheme = [] then
    { scheme := baseLink.scheme
      host := baseLink.host
      path := relativeLink.path
      query := []
      fragment := [] }
  else relativeLink

/- pkg/linkextractor.domainMatches: same host as the page, or empty host. -/
def domainMatches (webpageURL hrefValue : URL) : Bool :=
  webpageURL.host == hrefValue.host || hrefValue.host == ([] : List Char)

/- The per-href body of pkg/linkextractor.searchDomainMatchingLinks: a failed
url.Parse is skipped; otherwise normalize, resolve relative links, and keep
the link iff domainMatches accepts it. -/
def processHref (webpageURL : URL) (href : Option URL) : Option URL :=
  match href with
  | none => none
  | some hrefUrl =>
    let normalizedLink := handleRelativeLink webpageURL (Normalize hrefUrl)
    if domainMatches webpageURL normalizedLink then some normalizedLink else none

/- pkg/linkextractor.searchDomainMatchingLinks over the document-order list of
anchor href parse results (the DOM walk is the external html package). -/
def searchDomainMatchingLinks (webpageURL : URL) (hrefs : List (Option URL)) : List URL :=
  hrefs.filterMap (processHref webpageURL)

/- pkg/linkextractor.removeDuplicates: keep the first occurrence of each
link.String() key, preserving order; `seen` is the uniqueMap. -/
def removeDuplicatesAux (seen : List (List Char)) : List URL → List URL
  | [] => []
  | link :: rest =>
    if urlString link ∈ seen then removeDuplicatesAux seen rest
    else link :: removeDuplicatesAux (urlString link :: seen) rest

def removeDuplicates (links : List URL) : List URL :=
  removeDuplicatesAux [] links

/- pkg/linkextractor.Extract. The tolerant html.Parse never fails on string
input, so the error result of the Go function is not modelled. -/
def Extract (webpageURL : URL) (hrefs : List (Option URL)) : List URL :=
  removeDuplicates (searchDomainMatchingLinks webpageURL hrefs)

/- A Fetcher (pkg/fetcher.Fetcher) returns, for a URL, either an error or the
page content, modelled as the anchor-href parse results of that content. -/
def Fetcher : Type :=
  URL → Except Nat (List (Option URL))

/- pkg/crawler.crawlWebpage: fetch, then extract; the reader close has no
observable effect in the model. -/
def crawlWebpage (httpFetcher : Fetcher) (webpageURL : URL) : Except Nat (List URL) :=
  match httpFetcher webpageURL with
  | Except.error e => Except.error e
  | Except.ok page => Except.ok (Extract webpageURL page)

/- The crawl-visible state of one BreadthFirstCrawler.Crawl run. `visited` is
the visitedLinks map (key insertion order retained; Go map iteration order is
unspecified, so theorems about the result use membership). `fetches`,
`errorCalls` and `linkFoundCalls` record, in program order, the calls to
Fetcher.FetchWebpageContent, to the error callback and to the linkFound
callback. `polls` counts the ctx.Err() polls made so far. -/
structure CrawlState where
  visited : List (List Char × Bool)
  fetches : List URL
  errorCalls : List (URL × Nat)
  linkFoundCalls : List URL
  polls : Nat
deriving DecidableEq, Repr

def initialState : CrawlState :=
  { visited := [], fetches := [], errorCalls := [], linkFoundCalls := [], polls := 0 }

/- Reading visitedLinks[key]: none models a missing key (Go yields the zero
value false on read). -/
def lookupVisited : List (List Char × Bool) → List Char → Option Bool
  | [], _ => none
  | (k, b) :: rest, key => if k = key then some b else lookupVisited rest key

/- Writing visitedLinks[key] = b. -/
def setVisited : List (List Char × Bool) → List Char → Bool → List (List Char × Bool)
  | [], key, b => [(key, b)]
  | (k, v) :: rest, key, b =>
    if k = key then (k, b) :: rest else (k, v) :: setVisited rest key b

/- pkg/crawler.crawlBatchConcurrently: for each link of the batch, skip it if
visitedLinks[link.String()] is true, else mark it true and fetch it; a fetch
error is delivered to the error callback, a success contributes its extracted
links to the next frontier. Returns (contributed links, updated state). -/
def crawlBatch (fetcher : Fetcher) : List URL → CrawlState → List URL × CrawlState
  | [], st => ([], st)
  | linkInBatch :: rest, st =>
    if (lookupVisited st.visited (urlString linkInBatch)).getD false then
      crawlBatch fetcher rest st
    else
      match crawlWebpage fetcher linkInBatch with
      | Except.error e =>
          crawlBatch fetcher rest
            { st with visited := setVisited st.visited (urlString linkInBatch) true
                      fetches := st.fetches ++ [linkInBatch]
                      errorCalls := st.errorCalls ++ [(linkInBatch, e)] }
      | Except.ok links =>
          (links ++ (crawlBatch fetcher rest
              { st with visited := setVisited st.visited (urlString linkInBatch) true
                        fetches := st.fetches ++ [linkInBatch] }).1,
           (crawlBatch fetcher rest
              { st with visited := setVisited st.visited (urlString linkInBatch) true
                        fetches := st.fetches ++ [linkInBatch] }).2)

/- pkg/crawler.buildBatches: contiguous slices of size ≤ batchSize, via a
structural fuel of urlsToCrawl.length (each step consumes ≥ 1 element when
batchSize ≥ 1; batchSize = 0 cannot be reached past validation). -/
def buildBatchesFuel : Nat → List URL → Nat → List (List URL)
  | 0, _, _ => []
  | _ + 1, [], _ => []
  | fuel + 1, u :: rest, batchSize =>
    (u :: rest).take batchSize :: buildBatchesFuel fuel ((u :: rest).drop batchSize) batchSize

def buildBatches (urlsToCrawl : List URL) (batchSize : Nat) : List (List URL) :=
  buildBatchesFuel urlsToCrawl.length urlsToCrawl batchSize

/- The per-layer batch loop of Crawl: one ctx.Err() poll before each batch;
on a cancelled poll the loop breaks (remaining batches are not polled). -/
def runBatches (fetcher : Fetcher) (cancelAt : Nat) :
    List (List URL) → CrawlState → List URL × CrawlState
  | [], st => ([], st)
  | batch :: rest, st =>
    if cancelAt ≤ st.polls then
      ([], { st with polls := st.polls + 1 })
    else
      ((crawlBatch fetcher batch { st with polls := st.polls + 1 }).1 ++
        (runBatches fetcher cancelAt rest
          (crawlBatch fetcher batch { st with polls := st.polls + 1 }).2).1,
       (runBatches fetcher cancelAt rest
          (crawlBatch fetcher batch { st with polls := st.polls + 1 }).2).2)

/- The post-batch loop of Crawl: every link of the new frontier that is not
yet a key of visitedLinks is inserted with value false, and the linkFound
callback is invoked for it. -/
def registerFound : List URL → CrawlState → CrawlState
  | [], st => st
  | link :: rest, st =>
    match lookupVisited st.visited (urlString link) with
    | some _ => registerFound rest st
    | none =>
        registerFound rest
          { st with visited := setVisited st.visited (urlString link) false
                    linkFoundCalls := st.linkFoundCalls ++ [link] }

/- The main depth loop of Crawl. -/
def crawlLayers (fetcher : Fetcher) (cancelAt : Nat) (maxConcurrency : Nat) :
    Nat → List URL → CrawlState → CrawlState
  | 0, _, st => st
  | d + 1, linksAtDepth, st =>
    crawlLayers fetcher cancelAt maxConcurrency d
      (runBatches fetcher cancelAt (buildBatches linksAtDepth maxConcurrency) st).1
      (registerFound
        (runBatches fetcher cancelAt (buildBatches linksAtDepth maxConcurrency) st).1
        (runBatches fetcher cancelAt (buildBatches linksAtDepth maxConcurrency) st).2)

/- pkg/crawler/types.go validation errors. -/
inductive CrawlError where
  | invalidDepth
  | invalidMaxConcurrency
deriving DecidableEq, Repr

/- pkg/crawler BreadthFirstCrawler.Crawl. Result: the slice of visited keys
and the returned error; the final CrawlState is exposed for the theorems. -/
def Crawl (fetcher : Fetcher) (cancelAt : Nat) (urlToCrawl : URL)
    (depth maxConcurrency : Int) :
    (List (List Char) × Option CrawlError) × CrawlState :=
  if depth ≤ 0 then (([], some CrawlError.invalidDepth), initialState)
  else if maxConcurrency ≤ 0 then (([], some CrawlError.invalidMaxConcurrency), initialState)
  else
    let finalState := crawlLayers fetcher cancelAt maxConcurrency.toNat depth.toNat
      [Normalize urlToCrawl] initialState
    ((finalState.visited.map Prod.fst, none), finalState)

/- pkg/fetcher ExpBackoffRetryFetcher.FetchWebpageContent. The inner fetcher
is modelled per attempt number; webpage content is a Go string. Along with
the Go return value (content, error) the model records the slept delays and
the attempt numbers at which the inner fetcher was invoked. The delay after
failed attempt i is (time.Duration(i) ^ 2) * delayBetweenRetries, where ^ is
Go bitwise XOR. -/
def retryLoopAux (innerFetcher : Nat → Except Nat (List Char)) (delayBetweenRetries : Nat) :
    Nat → Nat → Option Nat → List Nat → List Nat →
    (List Char × Option Nat) × List Nat × List Nat
  | _, 0, lastError, sleeps, calls => (([], lastError), sleeps, calls)
  | i, remaining + 1, _, sleeps, calls =>
    match innerFetcher i with
    | Except.ok webpageContent => ((webpageContent, none), sleeps, calls ++ [i])
    | Except.error e =>
        retryLoopAux innerFetcher delayBetweenRetries (i + 1) remaining (some e)
          (sleeps ++ [(i ^^^ 2) * delayBetweenRetries]) (calls ++ [i])

def expBackoffFetchWebpageContent (innerFetcher : Nat → Except Nat (List Char))
    (numberOfRetries : Int) (delayBetweenRetries : Nat) :
    (List Char × Option Nat) × List Nat × List Nat :=
  retryLoopAux innerFetcher delayBetweenRetries 1 numberOfRetries.toNat none [] []

/- Concrete fixtures used by counterexamples and witnesses, taken from the
repository's test data (crawler_test.go mock site rooted at https://test.com). -/
def seedURL : URL :=
  ⟨"https".toList, "test.com".toList, [], [], []⟩

def contactURL : URL :=
  ⟨"https".toList, "test.com".toList, "/contact".toList, [], []⟩

def aboutURL : URL :=
  ⟨"https".toList, "test.com".toList, "/about-us".toList, [], []⟩

def depth3URL : URL :=
  ⟨"https".toList, "test.com".toList, "/depth3".toList, [], []⟩

def depth4URL : URL :=
  ⟨"https".toList, "test.com".toList, "/depth4".toList, [], []⟩

/- The mock site of crawler_test.go: / links to /, /contact, /about-us;
/contact links to /, /depth3; /about-us links to /, /contact, /about-us;
/depth3 links to /, /depth4; everything else is an empty page. -/
def mockSiteFetcher : Fetcher := fun u =>
  if u = seedURL then Except.ok [some seedURL, some contactURL, some aboutURL]
  else if u = contactURL then Except.ok [some seedURL, some depth3URL]
  else if u = aboutURL then Except.ok [some seedURL, some contactURL, some aboutURL]
  else if u = depth3URL then Except.ok [some seedURL, some depth4URL]
  else Except.ok []

/- A fetcher whose every fetch fails. -/
def failingFetcher : Fetcher := fun _ => Except.error 7

/- url.Parse "mailto:a@test.com": scheme mailto, opaque address, empty host
and empty path (net/url stores the address in the Opaque field, which the
repository never reads). -/
def mailtoHref : URL :=
  ⟨"mailto".toList, [], [], [], []⟩

/- A fetcher serving a page whose only anchor is the mailto href above. -/
def mailtoPageFetcher : Fetcher := fun u =>
  if u = seedURL then Except.ok [some mailtoHref] else Except.ok []

/- An always-failing inner fetcher for the retry wrapper. -/
def alwaysFailInner : Nat → Except Nat (List Char) := fun _ => Except.error 7

/- A URL whose host "wwwww.w." loses one "www." occurrence per normalization
pass: removing the single occurrence concatenates "ww" and "w." into a fresh
"www.", so a second pass erases the host. -/
def wwwPathologicalURL : URL :=
  ⟨"https".toList, "wwwww.w.".toList, [], [], []⟩

/- A URL whose host has a "www." occurrence that is not a leading one. -/
def innerWWWURL : URL :=
  ⟨"https".toList, "test.www.com".toList, "/a/".toList, "q=1".toList, "top".toList⟩

/- An href with a non-http scheme and a non-empty host different from the
base host (as parsed from, e.g., "mailto://other.com/x"). -/
def crossOriginHref : URL :=
  ⟨"mailto".toList, "other.com".toList, "/x".toList, [], []⟩

/- Invariant carried through every step of one Crawl run: each fetched URL
and each error-callback URL is a key of visitedLinks with value true, each
linkFound-callback URL is a key of visitedLinks, no two fetches and no two
linkFound calls share a URL string, and every fetch that fails is delivered
to the error callback. -/
def StateInv (fetcher : Fetcher) (st : CrawlState) : Prop :=
  (st.fetches.map urlString).Nodup ∧
  (st.linkFoundCalls.map urlString).Nodup ∧
  (∀ u ∈ st.fetches, lookupVisited st.visited (urlString u) = some true) ∧
  (∀ u ∈ st.linkFoundCalls, (lookupVisited st.visited (urlString u)).isSome = true) ∧
  (∀ p ∈ st.errorCalls, lookupVisited st.visited (urlString p.1) = some true) ∧
  (∀ u e, u ∈ st.fetches → fetcher u = Except.error e → (u, e) ∈ st.errorCalls)

/- Sanity checks of the embedding against the repository's own test data
(linkextractor_test.go and crawler_test.go expectations). -/
theorem embedding_matches_normalize_test :
    replaceWWWAll "www.test.com".toList = "test.com".toList ∧
    trimRightSlashes "/contact/".toList = "/contact".toList ∧
    urlString ⟨"https".toList, "test.com".toList, "/contact".toList, [], []⟩ =
      "https://test.com/contact".toList ∧
    urlString seedURL = "https://test.com".toList := by
  exact ⟨by decide, by decide, by decide, by decide⟩

theorem embedding_matches_crawler_test :
    Extract seedURL [some seedURL, some contactURL, some aboutURL] =
      [seedURL, contactURL, aboutURL] ∧
    (Crawl mockSiteFetcher 1000 seedURL 1 1).1.1 =
      ["https://test.com".toList, "https://test.com/contact".toList,
       "https://test.com/about-us".toList] ∧
    (Crawl mockSiteFetcher 1000 seedURL 2 1).1.1 =
      ["https://test.com".toList, "https://test.com/contact".toList,
       "https://test.com/about-us".toList, "https://test.com/depth3".toList] ∧
    (Crawl mockSiteFetcher 0 seedURL 2 1).1.1 = [] := by
  exact ⟨by decide, by decide, by decide, by decide⟩

/- Reading a map after a write: the written key reads back the written value,
all other keys are unaffected. -/
theorem lookupVisited_setVisited (v : List (List Char × Bool)) (k k' : List Char) (b : Bool) :
    lookupVisited (setVisited v k b) k' = if k = k' then some b else lookupVisited v k' := by
  induction v with
  | nil =>
    by_cases h : k = k' <;> simp [setVisited, lookupVisited, h]
  | cons kv rest ih =>
    obtain ⟨k0, v0⟩ := kv
    by_cases h0 : k0 = k
    · subst h0
      by_cases h1 : k0 = k'
      · subst h1
        simp [setVisited, lookupVisited]
      · simp [setVisited, lookupVisited, h1]
    · by_cases h1 : k0 = k'
      · subst h1
        have hkk : ¬ k = k0 := fun hh => h0 hh.symm
        simp [setVisited, lookupVisited, h0, hkk]
      · simp [setVisited, lookupVisited, h0, h1, ih]

/- A key has a value in the map iff it is among the map's keys. -/
theorem lookupVisited_isSome_iff (v : List (List Char × Bool)) (k : List Char) :
    (lookupVisited v k).isSome = true ↔ k ∈ v.map Prod.fst := by
  induction v with
  | nil => simp [lookupVisited]
  | cons kv rest ih =>
    obtain ⟨k0, v0⟩ := kv
    rw [List.map_cons]
    by_cases h : k0 = k
    · subst h
      simp [lookupVisited]
    · rw [lookupVisited, if_neg h, List.mem_cons, ih]
      constructor
      · exact Or.inr
      · rintro (h1 | h1)
        · exact absurd h1.symm h
        · exact h1

/- Key membership after a write. -/
theorem mem_map_fst_setVisited (v : List (List Char × Bool)) (k k' : List Char) (b : Bool) :
    k' ∈ (setVisited v k b).map Prod.fst ↔ k' = k ∨ k' ∈ v.map Prod.fst := by
  rw [← lookupVisited_isSome_iff, lookupVisited_setVisited, ← lookupVisited_isSome_iff]
  by_cases h : k = k'
  · subst h
    simp
  · rw [if_neg h]
    have h' : ¬ k' = k := fun hh => h hh.symm
    simp [h']

theorem dropWhile_dropWhile_eq (p : Char → Bool) (l : List Char) :
    (l.dropWhile p).dropWhile p = l.dropWhile p := by
  induction l with
  | nil => rfl
  | cons c rest ih =>
    by_cases h : p c <;> simp [List.dropWhile_cons, h, ih]

theorem head?_dropWhile_false (p : Char → Bool) (l : List Char) (a : Char)
    (h : (l.dropWhile p).head? = some a) : p a = false := by
  induction l with
  | nil => simp [List.dropWhile] at h
  | cons c rest ih =>
    by_cases hc : p c
    · exact ih (by simpa [List.dropWhile_cons, hc] using h)
    · have : c = a := by simpa [List.dropWhile_cons, hc] using h
      subst this
      simpa using hc

theorem mem_takeWhile_pred (p : Char → Bool) (l : List Char) (c : Char)
    (h : c ∈ l.takeWhile p) : p c = true := by
  induction l with
  | nil => simp [List.takeWhile] at h
  | cons a rest ih =>
    by_cases ha : p a
    · rw [List.takeWhile_cons, if_pos ha] at h
      rcases List.mem_cons.mp h with h | h
      · exact h ▸ ha
      · exact ih h
    · rw [List.takeWhile_cons, if_neg ha] at h
      cases h

/- A host without any "www." occurrence is left unchanged by the removal. -/
theorem replaceWWWAll_of_not_contains :
    ∀ s : List Char, containsWWWDot s = false → replaceWWWAll s = s := by
  intro s
  induction s with
  | nil => intro _; rfl
  | cons c1 rest1 ih =>
    intro h
    cases rest1 with
    | nil => rfl
    | cons c2 rest2 =>
      cases rest2 with
      | nil => rfl
      | cons c3 rest3 =>
        cases rest3 with
        | nil => rfl
        | cons c4 rest4 =>
          rw [containsWWWDot] at h
          rw [replaceWWWAll]
          by_cases ht : c1 = 'w' ∧ c2 = 'w' ∧ c3 = 'w' ∧ c4 = '.'
          · rw [if_pos ht] at h
            cases h
          · rw [if_neg ht] at h
            rw [if_neg ht, ih h]

/- The post-batch loop only touches visited and linkFoundCalls. -/
theorem registerFound_fetches :
    ∀ (links : List URL) (st : CrawlState), (registerFound links st).fetches = st.fetches := by
  intro links
  induction links with
  | nil => intro st; rfl
  | cons link rest ih =>
    intro st
    rw [registerFound]
    cases lookupVisited st.visited (urlString link) with
    | some b => exact ih st
    | none => exact ih _

theorem registerFound_errorCalls :
    ∀ (links : List URL) (st : CrawlState), (registerFound links st).errorCalls = st.errorCalls := by
  intro links
  induction links with
  | nil => intro st; rfl
  | cons link rest ih =>
    intro st
    rw [registerFound]
    cases lookupVisited st.visited (urlString link) with
    | some b => exact ih st
    | none => exact ih _

theorem registerFound_polls :
    ∀ (links : List URL) (st : CrawlState), (registerFound links st).polls = st.polls := by
  intro links
  induction links with
  | nil => intro st; rfl
  | cons link rest ih =>
    intro st
    rw [registerFound]
    cases lookupVisited st.visited (urlString link) with
    | some b => exact ih st
    | none => exact ih _

/- After the post-batch loop, the visited keys are the old keys plus the
string forms of the registered frontier links. -/
theorem registerFound_visited_mem (k' : List Char) :
    ∀ (links : List URL) (st : CrawlState),
      k' ∈ (registerFound links st).visited.map Prod.fst ↔
        k' ∈ st.visited.map Prod.fst ∨ k' ∈ links.map urlString := by
  intro links
  induction links with
  | nil => intro st; simp [registerFound]
  | cons link rest ih =>
    intro st
    rw [registerFound]
    cases hl : lookupVisited st.visited (urlString link) with
    | some b =>
      rw [ih]
      have hmem : urlString link ∈ st.visited.map Prod.fst := by
        rw [← lookupVisited_isSome_iff, hl]
        rfl
      rw [List.map_cons, List.mem_cons]
      constructor
      · rintro (h | h)
        · exact Or.inl h
        · exact Or.inr (Or.inr h)
      · rintro (h | h | h)
        · exact Or.inl h
        · exact Or.inl (h ▸ hmem)
        · exact Or.inr h
    | none =>
      rw [ih, mem_map_fst_setVisited, List.map_cons, List.mem_cons]
      constructor
      · rintro ((h | h) | h)
        · exact Or.inr (Or.inl h)
        · exact Or.inl h
        · exact Or.inr (Or.inr h)
      · rintro (h | h | h)
        · exact Or.inl (Or.inr h)
        · exact Or.inl (Or.inl h)
        · exact Or.inr h

/- Once a poll has reported cancellation, the batch loop of the layer stops
without fetching and without contributing to the next frontier. -/
theorem runBatches_cancelled (fetcher : Fetcher) (cancelAt : Nat)
    (batches : List (List URL)) (st : CrawlState) (h : cancelAt ≤ st.polls) :
    (runBatches fetcher cancelAt batches st).1 = [] ∧
    (runBatches fetcher cancelAt batches st).2.visited = st.visited ∧
    (runBatches fetcher cancelAt batches st).2.fetches = st.fetches ∧
    (runBatches fetcher cancelAt batches st).2.errorCalls = st.errorCalls ∧
    (runBatches fetcher cancelAt batches st).2.linkFoundCalls = st.linkFoundCalls ∧
    st.polls ≤ (runBatches fetcher cancelAt batches st).2.polls := by
  cases batches with
  | nil => simp [runBatches]
  | cons batch rest =>
    rw [runBatches, if_pos h]
    simp

/- Once cancellation has been observed, the remaining layers change nothing
but the poll counter: no fetch, no callback, no visited-set growth. -/
theorem crawlLayers_frozen (fetcher : Fetcher) (cancelAt : Nat) (mcN : Nat) :
    ∀ (d : Nat) (frontier : List URL) (st : CrawlState), cancelAt ≤ st.polls →
      (crawlLayers fetcher cancelAt mcN d frontier st).visited = st.visited ∧
      (crawlLayers fetcher cancelAt mcN d frontier st).fetches = st.fetches ∧
      (crawlLayers fetcher cancelAt mcN d frontier st).errorCalls = st.errorCalls ∧
      (crawlLayers fetcher cancelAt mcN d frontier st).linkFoundCalls = st.linkFoundCalls := by
  intro d
  induction d with
  | zero => intro frontier st h; exact ⟨rfl, rfl, rfl, rfl⟩
  | succ d ih =>
    intro frontier st h
    obtain ⟨hf1, hv, hfe, her, hlf, hp⟩ :=
      runBatches_cancelled fetcher cancelAt (buildBatches frontier mcN) st h
    rw [crawlLayers]
    rw [hf1]
    have hreg :
        registerFound [] (runBatches fetcher cancelAt (buildBatches frontier mcN) st).2 =
          (runBatches fetcher cancelAt (buildBatches frontier mcN) st).2 := rfl
    rw [hreg]
    obtain ⟨ihv, ihf, ihe, ihl⟩ :=
      ih [] (runBatches fetcher cancelAt (buildBatches frontier mcN) st).2 (le_trans h hp)
    exact ⟨ihv.trans hv, ihf.trans hfe, ihe.trans her, ihl.trans hlf⟩

/- Dispatching an unvisited link preserves the crawl invariant;
newErrorCalls is the error-callback log after the dispatched fetch has been
handled. -/
theorem stateInv_dispatch_general (fetcher : Fetcher) (st : CrawlState) (link : URL)
    (newErrorCalls : List (URL × Nat))
    (hv : (lookupVisited st.visited (urlString link)).getD false = false)
    (h : StateInv fetcher st)
    (hold : ∀ p ∈ st.errorCalls, p ∈ newErrorCalls)
    (herr : ∀ e, fetcher link = Except.error e → (link, e) ∈ newErrorCalls)
    (hall : ∀ p ∈ newErrorCalls, p ∈ st.errorCalls ∨ p.1 = link) :
    StateInv fetcher
      { st with visited := setVisited st.visited (urlString link) true
                fetches := st.fetches ++ [link]
                errorCalls := newErrorCalls } := by
  obtain ⟨h1, h2, h3, h4, h5, h6⟩ := h
  have hkey : urlString link ∉ st.fetches.map urlString := by
    intro hmem
    obtain ⟨u, hu, hue⟩ := List.mem_map.mp hmem
    have hk := h3 u hu
    rw [hue] at hk
    rw [hk] at hv
    simp at hv
  refine ⟨?_, ?_, ?_, ?_, ?_, ?_⟩
  · rw [List.map_append, List.nodup_append]
    refine ⟨h1, by simp, ?_⟩
    intro a ha hb
    simp only [List.map_cons, List.map_nil, List.mem_singleton] at hb
    exact hkey (hb ▸ ha)
  · exact h2
  · intro u hu
    rcases List.mem_append.mp hu with hu | hu
    · rw [lookupVisited_setVisited]
      by_cases hx : urlString link = urlString u
      · rw [if_pos hx]
      · rw [if_neg hx]
        exact h3 u hu
    · have : u = link := by simpa using hu
      subst this
      rw [lookupVisited_setVisited, if_pos rfl]
  · intro u hu
    rw [lookupVisited_setVisited]
    by_cases hx : urlString link = urlString u
    · rw [if_pos hx]
      rfl
    · rw [if_neg hx]
      exact h4 u hu
  · intro p hp
    rcases hall p hp with hpo | hpl
    · rw [lookupVisited_setVisited]
      by_cases hx : urlString link = urlString p.1
      · rw [if_pos hx]
      · rw [if_neg hx]
        exact h5 p hpo
    · rw [hpl, lookupVisited_setVisited, if_pos rfl]
  · intro u e hu he
    rcases List.mem_append.mp hu with hu | hu
    · exact hold (u, e) (h6 u e hu he)
    · have : u = link := by simpa using hu
      subst this
      exact herr e he

/- crawlBatchConcurrently preserves the crawl invariant. -/
theorem crawlBatch_inv (fetcher : Fetcher) :
    ∀ (batch : List URL) (st : CrawlState), StateInv fetcher st →
      StateInv fetcher (crawlBatch fetcher batch st).2 := by
  intro batch
  induction batch with
  | nil => intro st h; exact h
  | cons link rest ih =>
    intro st h
    rw [crawlBatch]
    by_cases hv : (lookupVisited st.visited (urlString link)).getD false = true
    · rw [if_pos hv]
      exact ih st h
    · rw [if_neg hv]
      have hv' : (lookupVisited st.visited (urlString link)).getD false = false := by
        revert hv
        cases (lookupVisited st.visited (urlString link)).getD false <;> simp
      cases hf : fetcher link with
      | error e =>
        have hcw : crawlWebpage fetcher link = Except.error e := by
          rw [crawlWebpage, hf]
        rw [hcw]
        apply ih
        exact stateInv_dispatch_general fetcher st link (st.errorCalls ++ [(link, e)]) hv' h
          (fun p hp => List.mem_append_left _ hp)
          (fun e' he' => by
            rw [hf] at he'
            have : e = e' := by simpa using he'
            exact List.mem_append_right _ (by simp [this]))
          (fun p hp => by
            rcases List.mem_append.mp hp with hp | hp
            · exact Or.inl hp
            · have : p = (link, e) := by simpa using hp
              exact Or.inr (by rw [this]))
      | ok page =>
        have hcw : crawlWebpage fetcher link = Except.ok (Extract link page) := by
          rw [crawlWebpage, hf]
        rw [hcw]
        apply ih
        have := stateInv_dispatch_general fetcher st link st.errorCalls hv' h
          (fun p hp => hp)
          (fun e' he' => by rw [hf] at he'; cases he')
          (fun p hp => Or.inl hp)
        exact this

/- The batch loop preserves the crawl invariant. -/
theorem runBatches_inv (fetcher : Fetcher) (cancelAt : Nat) :
    ∀ (batches : List (List URL)) (st : CrawlState), StateInv fetcher st →
      StateInv fetcher (runBatches fetcher cancelAt batches st).2 := by
  intro batches
  induction batches with
  | nil => intro st h; exact h
  | cons batch rest ih =>
    intro st h
    rw [runBatches]
    by_cases hc : cancelAt ≤ st.polls
    · rw [if_pos hc]
      exact h
    · rw [if_neg hc]
      exact ih _ (crawlBatch_inv fetcher batch { st with polls := st.polls + 1 } h)

/- The post-batch loop preserves the crawl invariant. -/
theorem registerFound_inv (fetcher : Fetcher) :
    ∀ (links : List URL) (st : CrawlState), StateInv fetcher st →
      StateInv fetcher (registerFound links st) := by
  intro links
  induction links with
  | nil => intro st h; exact h
  | cons link rest ih =>
    intro st h
    obtain ⟨h1, h2, h3, h4, h5, h6⟩ := h
    rw [registerFound]
    cases hl : lookupVisited st.visited (urlString link) with
    | some b => exact ih st ⟨h1, h2, h3, h4, h5, h6⟩
    | none =>
      apply ih
      refine ⟨h1, ?_, ?_, ?_, ?_, h6⟩
      · rw [List.map_append, List.nodup_append]
        refine ⟨h2, by simp, ?_⟩
        intro a ha hb
        simp only [List.map_cons, List.map_nil, List.mem_singleton] at hb
        subst hb
        obtain ⟨u, hu, hue⟩ := List.mem_map.mp ha
        have hk := h4 u hu
        rw [hue, hl] at hk
        cases hk
      · intro u hu
        rw [lookupVisited_setVisited]
        by_cases hx : urlString link = urlString u
        · have hk := h3 u hu
          rw [← hx, hl] at hk
          cases hk
        · rw [if_neg hx]
          exact h3 u hu
      · intro u hu
        rcases List.mem_append.mp hu with hu | hu
        · rw [lookupVisited_setVisited]
          by_cases hx : urlString link = urlString u
          · rw [if_pos hx]
            rfl
          · rw [if_neg hx]
            exact h4 u hu
        · have : u = link := by simpa using hu
          subst this
          rw [lookupVisited_setVisited, if_pos rfl]
          rfl
      · intro p hp
        rw [lookupVisited_setVisited]
        by_cases hx : urlString link = urlString p.1
        · have hk := h5 p hp
          rw [← hx, hl] at hk
          cases hk
        · rw [if_neg hx]
          exact h5 p hp

/- The depth loop preserves the crawl invariant. -/
theorem crawlLayers_inv (fetcher : Fetcher) (cancelAt : Nat) (mcN : Nat) :
    ∀ (d : Nat) (frontier : List URL) (st : CrawlState), StateInv fetcher st →
      StateInv fetcher (crawlLayers fetcher cancelAt mcN d frontier st) := by
  intro d
  induction d with
  | zero => intro frontier st h; exact h
  | succ d ih =>
    intro frontier st h
    rw [crawlLayers]
    exact ih _ _ (registerFound_inv fetcher _ _
      (runBatches_inv fetcher cancelAt (buildBatches frontier mcN) st h))

theorem stateInv_initial (fetcher : Fetcher) : StateInv fetcher initialState :=
  ⟨List.nodup_nil, List.nodup_nil,
   fun u hu => absurd hu (List.not_mem_nil u),
   fun u hu => absurd hu (List.not_mem_nil u),
   fun p hp => absurd hp (List.not_mem_nil p),
   fun u _ hu _ => absurd hu (List.not_mem_nil u)⟩

/- Crawl past validation, written in terms of its depth loop. -/
theorem crawl_unfold (fetcher : Fetcher) (cancelAt : Nat) (u : URL) (depth mc : Int)
    (hd : 0 < depth) (hm : 0 < mc) :
    Crawl fetcher cancelAt u depth mc =
      (((crawlLayers fetcher cancelAt mc.toNat depth.toNat [Normalize u]
          initialState).visited.map Prod.fst, none),
        crawlLayers fetcher cancelAt mc.toNat depth.toNat [Normalize u] initialState) := by
  rw [Crawl, if_neg (by omega), if_neg (by omega)]

/- The crawl invariant holds of the final state of every Crawl run. -/
theorem crawl_state_inv (fetcher : Fetcher) (cancelAt : Nat) (u : URL) (depth mc : Int) :
    StateInv fetcher (Crawl fetcher cancelAt u depth mc).2 := by
  rw [Crawl]
  by_cases hd : depth ≤ 0
  · rw [if_pos hd]
    exact stateInv_initial fetcher
  · rw [if_neg hd]
    by_cases hm : mc ≤ 0
    · rw [if_pos hm]
      exact stateInv_initial fetcher
    · rw [if_neg hm]
      exact crawlLayers_inv fetcher cancelAt mc.toNat depth.toNat [Normalize u]
        initialState (stateInv_initial fetcher)

/-- Claim C1: in one execution of BreadthFirstCrawler.Crawl, at most one
fetch is issued per URL string, and the linkFound callback fires at most
once per URL string: the visited-set check performed before dispatch makes
every later occurrence of an already-dispatched URL a no-op (no fetch, no
callback), in the same batch, a later batch, or a later layer. -/
theorem crawl_at_most_one_fetch_per_url (fetcher : Fetcher) (cancelAt : Nat) (u : URL)
    (depth maxConcurrency : Int) :
    ((Crawl fetcher cancelAt u depth maxConcurrency).2.fetches.map urlString).Nodup ∧
    ((Crawl fetcher cancelAt u depth maxConcurrency).2.linkFoundCalls.map urlString).Nodup :=
  ⟨(crawl_state_inv fetcher cancelAt u depth maxConcurrency).1,
   (crawl_state_inv fetcher cancelAt u depth maxConcurrency).2.1⟩

/-- Claim C3: Crawl returns the InvalidDepth error whenever depth ≤ 0, and
the InvalidMaxConcurrency error whenever depth > 0 and maxConcurrency ≤ 0;
in both cases the result is empty and the returned state is the initial one:
no fetch was issued and the visited set was never touched. -/
theorem crawl_validation_errors (fetcher : Fetcher) (cancelAt : Nat) (u : URL)
    (depth maxConcurrency : Int) :
    (depth ≤ 0 →
      Crawl fetcher cancelAt u depth maxConcurrency =
        (([], some CrawlError.invalidDepth), initialState)) ∧
    (0 < depth → maxConcurrency ≤ 0 →
      Crawl fetcher cancelAt u depth maxConcurrency =
        (([], some CrawlError.invalidMaxConcurrency), initialState)) ∧
    initialState.fetches = [] ∧ initialState.visited = [] := by
  refine ⟨fun h => ?_, fun h1 h2 => ?_, rfl, rfl⟩
  · rw [Crawl, if_pos h]
  · rw [Crawl, if_neg (by omega), if_pos h2]

theorem crawl_validation_errors_witness :
    Crawl failingFetcher 0 seedURL 0 1 = (([], some CrawlError.invalidDepth), initialState) ∧
    Crawl failingFetcher 0 seedURL 1 0 =
      (([], some CrawlError.invalidMaxConcurrency), initialState) :=
  ⟨(crawl_validation_errors failingFetcher 0 seedURL 0 1).1 (by decide),
   (crawl_validation_errors failingFetcher 0 seedURL 1 0).2.1 (by decide) (by decide)⟩

/-- Claim C4 counterexample: Normalize is not idempotent. On the host
"wwwww.w." one pass removes the single "www." occurrence, and the removal
concatenates the surrounding characters into a fresh "www." that a second
pass removes as well, so normalizing twice differs from normalizing once. -/
theorem normalize_not_idempotent_cex :
    Normalize (Normalize wwwPathologicalURL) ≠ Normalize wwwPathologicalURL ∧
    (Normalize wwwPathologicalURL).host = "www.".toList ∧
    (Normalize (Normalize wwwPathologicalURL)).host = [] := by
  refine ⟨?_, by decide, by decide⟩
  decide

/-- Claim C4 (amended): Normalize is idempotent on every URL whose host,
after the removal of all "www." occurrences, contains no "www."
occurrence (the removal can splice a new occurrence together, as the
counterexample shows; when it does not, a second pass changes nothing). -/
theorem normalize_idempotent_of_no_www (u : URL)
    (h : containsWWWDot (replaceWWWAll u.host) = false) :
    Normalize (Normalize u) = Normalize u := by
  simp [Normalize, trimRightSlashes, List.reverse_reverse, dropWhile_dropWhile_eq,
    replaceWWWAll_of_not_contains _ h]

theorem normalize_idempotent_of_no_www_witness :
    containsWWWDot (replaceWWWAll innerWWWURL.host) = false ∧
    Normalize (Normalize innerWWWURL) = Normalize innerWWWURL :=
  ⟨by decide, normalize_idempotent_of_no_www innerWWWURL (by decide)⟩

/-- Claim C5 counterexample: Normalize does not strip only a leading literal
"www." prefix: on the host "test.www.com", whose "www." occurrence is not
leading, the source removes it, while the specification's transformation
leaves the host unchanged. -/
theorem normalize_strips_inner_www_cex :
    Normalize innerWWWURL ≠ normalizeSpecLeading innerWWWURL ∧
    (Normalize innerWWWURL).host = "test.com".toList ∧
    (normalizeSpecLeading innerWWWURL).host = "test.www.com".toList := by
  refine ⟨?_, by decide, by decide⟩
  decide

/-- Claim C5 (amended): Normalize removes every occurrence of the substring
"www." from the host (not only a leading prefix), removes all trailing '/'
characters from the path (the result is an initial segment of the original
path, the removed tail is all slashes, and the result has no trailing
slash), retains the scheme exactly, and drops query and fragment, so the
canonical form has only scheme, host and path. -/
theorem normalize_characterization (u : URL) :
    (Normalize u).scheme = u.scheme ∧
    (Normalize u).host = replaceWWWAll u.host ∧
    (Normalize u).path = trimRightSlashes u.path ∧
    (Normalize u).query = [] ∧
    (Normalize u).fragment = [] ∧
    (∀ a, (Normalize u).path.getLast? = some a → a ≠ '/') ∧
    (∃ t, (∀ c ∈ t, c = '/') ∧ (Normalize u).path ++ t = u.path) := by
  refine ⟨rfl, rfl, rfl, rfl, rfl, ?_, ?_⟩
  · intro a ha
    have h1 : (u.path.reverse.dropWhile (fun c => c = '/')).head? = some a := by
      rw [show (Normalize u).path = trimRightSlashes u.path from rfl, trimRightSlashes,
        List.getLast?_reverse] at ha
      exact ha
    have h2 := head?_dropWhile_false _ _ _ h1
    simpa using h2
  · refine ⟨(u.path.reverse.takeWhile (fun c => c = '/')).reverse, ?_, ?_⟩
    · intro c hc
      rw [List.mem_reverse] at hc
      have h2 := mem_takeWhile_pred _ _ c hc
      simpa using h2
    · rw [show (Normalize u).path = trimRightSlashes u.path from rfl, trimRightSlashes,
        ← List.reverse_append, List.takeWhile_append_dropWhile, List.reverse_reverse]

theorem normalize_characterization_witness :
    (Normalize innerWWWURL).scheme = innerWWWURL.scheme ∧
    (Normalize innerWWWURL).host = replaceWWWAll innerWWWURL.host ∧
    (Normalize innerWWWURL).path = trimRightSlashes innerWWWURL.path ∧
    (Normalize innerWWWURL).query = [] ∧
    (Normalize innerWWWURL).fragment = [] ∧
    (∀ a, (Normalize innerWWWURL).path.getLast? = some a → a ≠ '/') ∧
    (∃ t, (∀ c ∈ t, c = '/') ∧ (Normalize innerWWWURL).path ++ t = innerWWWURL.path) :=
  normalize_characterization innerWWWURL

/-- Claim C9: the retry delays of ExpBackoffRetryFetcher.FetchWebpageContent
do not grow with the attempt number. With three failing attempts and a unit
base delay the slept delays are (1 XOR 2), (2 XOR 2), (3 XOR 2) = 3, 0, 1 —
the delay after attempt 1 exceeds the delay after attempt 2 — while the
function's own documentation promises an exponential backoff schedule; the
last error is surfaced after the attempts are exhausted. -/
theorem expBackoff_delay_not_monotone :
    (expBackoffFetchWebpageContent alwaysFailInner 3 1).2.1 = [3, 0, 1] ∧
    (expBackoffFetchWebpageContent alwaysFailInner 3 1).1 = ([], some 7) ∧
    ¬ List.Pairwise (fun a b => a ≤ b)
        (expBackoffFetchWebpageContent alwaysFailInner 3 1).2.1 := by
  refine ⟨by decide, by decide, ?_⟩
  decide

/-- Claim C10: with numberOfRetries ≤ 0 the retry loop body never runs, so
FetchWebpageContent returns empty content and a nil error without invoking
the inner fetcher even once — the same visible outcome as a successful fetch
of an empty page. -/
theorem retry_nonpositive_returns_empty_success (innerFetcher : Nat → Except Nat (List Char))
    (delayBetweenRetries : Nat) (numberOfRetries : Int) (h : numberOfRetries ≤ 0) :
    expBackoffFetchWebpageContent innerFetcher numberOfRetries delayBetweenRetries =
      (([], none), [], []) ∧
    (expBackoffFetchWebpageContent innerFetcher numberOfRetries delayBetweenRetries).1 =
      (expBackoffFetchWebpageContent (fun _ => Except.ok []) 1 delayBetweenRetries).1 := by
  have hz : numberOfRetries.toNat = 0 := by omega
  constructor
  · rw [expBackoffFetchWebpageContent, hz]
    rfl
  · rw [expBackoffFetchWebpageContent, hz]
    rfl

theorem retry_nonpositive_returns_empty_success_witness :
    (expBackoffFetchWebpageContent alwaysFailInner 0 4 = (([], none), [], []) ∧
     (expBackoffFetchWebpageContent alwaysFailInner 0 4).1 =
       (expBackoffFetchWebpageContent (fun _ => Except.ok []) 1 4).1) :=
  retry_nonpositive_returns_empty_success alwaysFailInner 4 0 (by decide)

/-- Claim C7: a URL whose fetch fails stays in the visited set with value
true and its string appears in the returned result, the failure is delivered
to the error callback with that URL, and Crawl still returns a nil error:
per-URL fetch failures never abort the crawl and are never surfaced as the
return error. -/
theorem crawl_fetch_failures_nonfatal (fetcher : Fetcher) (cancelAt : Nat) (u : URL)
    (depth maxConcurrency : Int) (link : URL) (e : Nat) (p : URL × Nat)
    (hd : 0 < depth) (hm : 0 < maxConcurrency)
    (hlink : link ∈ (Crawl fetcher cancelAt u depth maxConcurrency).2.fetches)
    (he : fetcher link = Except.error e)
    (hp : p ∈ (Crawl fetcher cancelAt u depth maxConcurrency).2.errorCalls) :
    (Crawl fetcher cancelAt u depth maxConcurrency).1.2 = none ∧
    (link, e) ∈ (Crawl fetcher cancelAt u depth maxConcurrency).2.errorCalls ∧
    lookupVisited (Crawl fetcher cancelAt u depth maxConcurrency).2.visited
      (urlString p.1) = some true ∧
    urlString p.1 ∈ (Crawl fetcher cancelAt u depth maxConcurrency).1.1 := by
  have hinv := crawl_state_inv fetcher cancelAt u depth maxConcurrency
  have h5 := hinv.2.2.2.2.1 p hp
  refine ⟨?_, hinv.2.2.2.2.2 link e hlink he, h5, ?_⟩
  · rw [crawl_unfold fetcher cancelAt u depth maxConcurrency hd hm]
  · have hsome : (lookupVisited (Crawl fetcher cancelAt u depth maxConcurrency).2.visited
        (urlString p.1)).isSome = true := by
      rw [h5]
      rfl
    have hmem := (lookupVisited_isSome_iff _ _).mp hsome
    rw [crawl_unfold fetcher cancelAt u depth maxConcurrency hd hm] at hmem ⊢
    exact hmem

/-- Claim C8 counterexample: with the mock site, depth 2, maxConcurrency 1
and a context whose cancellation is observed at the second poll, the only
fetch performed is the layer-0 seed — so cancellation was observed at the
first poll of layer 1, before any layer-1 batch was dispatched — yet
https://test.com/contact, a URL first reachable at layer 1 (it differs from
the seed, the only layer-0 URL), appears in the result: it was recorded in
the visited set at the end of layer 0, when the seed's page was processed. -/
theorem crawl_cancel_midway_cex :
    (Crawl mockSiteFetcher 1 seedURL 2 1).2.fetches = [seedURL] ∧
    "https://test.com/contact".toList ∈ (Crawl mockSiteFetcher 1 seedURL 2 1).1.1 ∧
    "https://test.com/contact".toList ≠ urlString (Normalize seedURL) ∧
    (Crawl mockSiteFetcher 1 seedURL 2 1).1.2 = none := by
  exact ⟨by decide, by decide, by decide, by decide⟩

/-- Claim C8 (amended): cancellation is never reported as an error: calling
Crawl with an already-cancelled context yields an empty result, a nil error,
and no fetch and no callback at all; and from any layer boundary reached
with the cancellation signal already observed (cancelAt ≤ st.polls), the
remaining layers perform no fetch, deliver no callback, and add nothing to
the visited set — so when the signal is observed before the batches of
layer K are dispatched, no URL is fetched at layer ≥ K and no URL first
reachable at layer ≥ K+1 (discovered only by layer-K fetches) can appear in
the result. This freeze holds at layer boundaries only: a layer cancelled
mid-way still runs its own post-batch loop, which registers the discoveries
of the batches completed before the signal and fires their linkFound
callbacks, so URLs first reachable at layer K — recorded while processing
layer K-1 — may appear in the result without ever being fetched. -/
theorem crawl_cancellation (fetcher : Fetcher) (u : URL) (depth mc : Int)
    (cancelAt mcN d : Nat) (frontier : List URL) (st : CrawlState)
    (hd : 0 < depth) (hm : 0 < mc) (hcan : cancelAt ≤ st.polls) :
    ((Crawl fetcher 0 u depth mc).1 = ([], none) ∧
     (Crawl fetcher 0 u depth mc).2.fetches = [] ∧
     (Crawl fetcher 0 u depth mc).2.errorCalls = [] ∧
     (Crawl fetcher 0 u depth mc).2.linkFoundCalls = []) ∧
    ((crawlLayers fetcher cancelAt mcN d frontier st).visited = st.visited ∧
     (crawlLayers fetcher cancelAt mcN d frontier st).fetches = st.fetches ∧
     (crawlLayers fetcher cancelAt mcN d frontier st).errorCalls = st.errorCalls ∧
     (crawlLayers fetcher cancelAt mcN d frontier st).linkFoundCalls = st.linkFoundCalls) := by
  constructor
  · obtain ⟨hv, hf, he, hl⟩ := crawlLayers_frozen fetcher 0 mc.toNat depth.toNat
      [Normalize u] initialState (Nat.zero_le _)
    rw [crawl_unfold fetcher 0 u depth mc hd hm]
    refine ⟨?_, hf, he, hl⟩
    rw [hv]
    rfl
  · exact crawlLayers_frozen fetcher cancelAt mcN d frontier st hcan

theorem crawl_cancellation_witness :
    ((Crawl mockSiteFetcher 0 seedURL 1 1).1 = ([], none) ∧
     (Crawl mockSiteFetcher 0 seedURL 1 1).2.fetches = [] ∧
     (Crawl mockSiteFetcher 0 seedURL 1 1).2.errorCalls = [] ∧
     (Crawl mockSiteFetcher 0 seedURL 1 1).2.linkFoundCalls = []) ∧
    ((crawlLayers mockSiteFetcher 3 1 2 [seedURL]
        { initialState with polls := 5 }).visited =
      ({ initialState with polls := 5 } : CrawlState).visited ∧
     (crawlLayers mockSiteFetcher 3 1 2 [seedURL]
        { initialState with polls := 5 }).fetches =
      ({ initialState with polls := 5 } : CrawlState).fetches ∧
     (crawlLayers mockSiteFetcher 3 1 2 [seedURL]
        { initialState with polls := 5 }).errorCalls =
      ({ initialState with polls := 5 } : CrawlState).errorCalls ∧
     (crawlLayers mockSiteFetcher 3 1 2 [seedURL]
        { initialState with polls := 5 }).linkFoundCalls =
      ({ initialState with polls := 5 } : CrawlState).linkFoundCalls) :=
  crawl_cancellation mockSiteFetcher seedURL 1 1 3 1 2 [seedURL]
    { initialState with polls := 5 } (by decide) (by decide) (by decide)

/-- Claim C2 counterexample: with depth 1, maxConcurrency 1, a live context
and a seed page carrying three same-origin links, Crawl returns three URLs,
not exactly the normalized seed: the links discovered while processing the
final layer are inserted into the visited set (value false) and returned,
even though only the seed itself was fetched. -/
theorem crawl_depth_one_cex :
    (Crawl mockSiteFetcher 1000 seedURL 1 1).1.1 ≠ [urlString (Normalize seedURL)] ∧
    (Crawl mockSiteFetcher 1000 seedURL 1 1).1.1.length = 3 ∧
    (Crawl mockSiteFetcher 1000 seedURL 1 1).2.fetches = [seedURL] := by
  exact ⟨by decide, by decide, by decide⟩

/-- Claim C2 (amended): for depth 1, maxConcurrency ≥ 1 and a context that is
not cancelled at the first poll, Crawl fetches exactly the normalized seed
and returns a nil error; if the seed's fetch fails the result is exactly the
normalized seed (visited membership is granted on dispatch); if it succeeds,
the result consists of the normalized seed together with the same-origin
normalized links extracted from the seed's page. -/
theorem crawl_depth_one_result (fetcher : Fetcher) (cancelAt : Nat) (u : URL) (mc : Int)
    (hm : 0 < mc) (hc : 1 ≤ cancelAt) :
    (∀ e, fetcher (Normalize u) = Except.error e →
      Crawl fetcher cancelAt u 1 mc =
        (([urlString (Normalize u)], none),
         { visited := [(urlString (Normalize u), true)]
           fetches := [Normalize u]
           errorCalls := [(Normalize u, e)]
           linkFoundCalls := []
           polls := 1 })) ∧
    (∀ page, fetcher (Normalize u) = Except.ok page →
      (Crawl fetcher cancelAt u 1 mc).1.2 = none ∧
      (Crawl fetcher cancelAt u 1 mc).2.fetches = [Normalize u] ∧
      (∀ k', k' ∈ (Crawl fetcher cancelAt u 1 mc).1.1 ↔
        (k' = urlString (Normalize u) ∨
         k' ∈ (Extract (Normalize u) page).map urlString))) := by
  obtain ⟨m, hmN⟩ : ∃ m, mc.toNat = m + 1 := ⟨mc.toNat - 1, by omega⟩
  have hone : (1 : Int).toNat = 1 := rfl
  have hbb : buildBatches [Normalize u] mc.toNat = [[Normalize u]] := by
    rw [buildBatches, hmN]
    simp [buildBatchesFuel]
  have hpoll : ¬ cancelAt ≤ initialState.polls := by
    simp only [initialState]
    omega
  have hlayers : crawlLayers fetcher cancelAt mc.toNat 1 [Normalize u] initialState =
      registerFound (runBatches fetcher cancelAt [[Normalize u]] initialState).1
        (runBatches fetcher cancelAt [[Normalize u]] initialState).2 := by
    rw [crawlLayers, hbb, crawlLayers]
  constructor
  · intro e hf
    have hcw : crawlWebpage fetcher (Normalize u) = Except.error e := by
      rw [crawlWebpage, hf]
    have hrb : runBatches fetcher cancelAt [[Normalize u]] initialState =
        ([], { visited := [(urlString (Normalize u), true)]
               fetches := [Normalize u]
               errorCalls := [(Normalize u, e)]
               linkFoundCalls := []
               polls := 1 }) := by
      rw [runBatches, if_neg hpoll, crawlBatch]
      rw [show (lookupVisited initialState.visited
            (urlString (Normalize u))).getD false = false from rfl]
      rw [if_neg (by simp), hcw]
      rfl
    rw [crawl_unfold fetcher cancelAt u 1 mc (by norm_num) hm, hone, hlayers, hrb]
    rfl
  · intro page hf
    have hcw : crawlWebpage fetcher (Normalize u) = Except.ok (Extract (Normalize u) page) := by
      rw [crawlWebpage, hf]
    have hrb : runBatches fetcher cancelAt [[Normalize u]] initialState =
        (Extract (Normalize u) page,
         { visited := [(urlString (Normalize u), true)]
           fetches := [Normalize u]
           errorCalls := []
           linkFoundCalls := []
           polls := 1 }) := by
      rw [runBatches, if_neg hpoll, crawlBatch]
      rw [show (lookupVisited initialState.visited
            (urlString (Normalize u))).getD false = false from rfl]
      rw [if_neg (by simp), hcw]
      simp [crawlBatch, runBatches, initialState, setVisited]
    rw [crawl_unfold fetcher cancelAt u 1 mc (by norm_num) hm, hone, hlayers, hrb]
    refine ⟨rfl, ?_, ?_⟩
    · rw [registerFound_fetches]
    · intro k'
      rw [registerFound_visited_mem]
      simp

theorem crawl_depth_one_result_witness :
    (0 : Int) < 1 ∧ 1 ≤ 1000 ∧
    ((Crawl mockSiteFetcher 1000 seedURL 1 1).1.2 = none ∧
     (Crawl mockSiteFetcher 1000 seedURL 1 1).2.fetches = [Normalize seedURL] ∧
     ("https://test.com/contact".toList ∈ (Crawl mockSiteFetcher 1000 seedURL 1 1).1.1 ↔
       ("https://test.com/contact".toList = urlString (Normalize seedURL) ∨
        "https://test.com/contact".toList ∈
          (Extract (Normalize seedURL)
            [some seedURL, some contactURL, some aboutURL]).map urlString))) := by
  refine ⟨by decide, by decide, ?_⟩
  have h := (crawl_depth_one_result mockSiteFetcher 1000 seedURL 1 (by decide)
    (by decide)).2 [some seedURL, some contactURL, some aboutURL] (by decide)
  exact ⟨h.1, h.2.1, h.2.2 ("https://test.com/contact".toList)⟩

/- An href with non-empty scheme and a non-empty normalized host different
from the base host is dropped by the same-origin filter. -/
theorem processHref_eq_none (base href : URL) (hs : href.scheme ≠ [])
    (hh : replaceWWWAll href.host ≠ []) (hne : replaceWWWAll href.host ≠ base.host) :
    processHref base (some href) = none := by
  have hhost : (Normalize href).host = replaceWWWAll href.host := rfl
  have hscheme : (Normalize href).scheme = href.scheme := rfl
  have hrel : handleRelativeLink base (Normalize href) = Normalize href := by
    rw [handleRelativeLink, if_neg]
    rintro (h | h)
    · rw [hhost] at h
      exact hh h
    · rw [hscheme] at h
      exact hs h
  have hdm : domainMatches base (handleRelativeLink base (Normalize href)) = false := by
    rw [hrel, domainMatches, hhost, Bool.or_eq_false_iff, beq_eq_false_iff_ne,
      beq_eq_false_iff_ne]
    exact ⟨fun hx => hne hx.symm, hh⟩
  simp only [processHref, hdm]
  simp

/-- Claim C6 counterexample: an anchor href with scheme mailto and empty
parsed host (such as "mailto:a@test.com") does contribute an element to the
extractor output: handleRelativeLink rewrites it onto the base scheme and
host, and the same-origin filter then accepts it, so the output is the base
URL itself rather than the empty list. -/
theorem extract_mailto_contributes_cex :
    Extract seedURL [some mailtoHref] =
      [⟨"https".toList, "test.com".toList, [], [], []⟩] ∧
    Extract seedURL [some mailtoHref] ≠ [] := by
  exact ⟨by decide, by decide⟩

/-- Claim C6 (amended): an anchor href whose scheme is non-empty and whose
normalized host is non-empty and differs from the base host contributes no
element to the extractor output (so in particular non-http(s) hrefs with a
foreign host are dropped); an href with empty parsed host — such as
mailto:a@test.com — is instead rewritten onto the base scheme and host, so
for seed https://test.com a page containing only that mailto anchor still
yields a crawl result containing only https://test.com and reports no
error. -/
theorem extract_cross_origin_rejected (base href : URL) (l1 l2 : List (Option URL))
    (hs : href.scheme ≠ []) (hh : replaceWWWAll href.host ≠ [])
    (hne : replaceWWWAll href.host ≠ base.host) :
    Extract base (l1 ++ some href :: l2) = Extract base (l1 ++ l2) ∧
    (Crawl mailtoPageFetcher 1000 seedURL 1 1).1 = ([urlString seedURL], none) ∧
    (Crawl mailtoPageFetcher 1000 seedURL 1 1).2.errorCalls = [] := by
  refine ⟨?_, by decide, by decide⟩
  rw [Extract, Extract, searchDomainMatchingLinks, searchDomainMatchingLinks,
    List.filterMap_append, List.filterMap_append]
  rw [List.filterMap_cons_none (processHref_eq_none base href hs hh hne)]

theorem extract_cross_origin_rejected_witness :
    (Extract seedURL ([] ++ some crossOriginHref :: []) = Extract seedURL ([] ++ []) ∧
     (Crawl mailtoPageFetcher 1000 seedURL 1 1).1 = ([urlString seedURL], none) ∧
     (Crawl mailtoPageFetcher 1000 seedURL 1 1).2.errorCalls = []) :=
  extract_cross_origin_rejected seedURL crossOriginHref [] []
    (by decide) (by decide) (by decide)

theorem crawl_fetch_failures_nonfatal_witness :
    (Crawl failingFetcher 1000 seedURL 1 1).1.2 = none ∧
    (seedURL, 7) ∈ (Crawl failingFetcher 1000 seedURL 1 1).2.errorCalls ∧
    lookupVisited (Crawl failingFetcher 1000 seedURL 1 1).2.visited
      (urlString seedURL) = some true ∧
    urlString seedURL ∈ (Crawl failingFetcher 1000 seedURL 1 1).1.1 :=
  crawl_fetch_failures_nonfatal failingFetcher 1000 seedURL 1 1 seedURL 7 (seedURL, 7)
    (by decide) (by decide) (by decide) (by decide) (by decide)
